import Mathlib

/-!
Verification development for the BotDataImport incremental CSV ingestion
pipeline (`data_pipeline.py`, `main.py`).

Cells of a table are modelled by `PyVal`: a Python value living in a pandas
object column is either a string, a boolean (after the flag conversion), or
the missing value NaN.  Numeric dtype columns are untouched by the
normalizer and play no role in any claim, so they are outside the model:
every column is modelled as an object column.  DataFrames are a column-name
list plus a list of rows; blob storage is an association list of containers,
each mapping blob names to (already CSV-parsed) DataFrames.
-/

/-- A scalar cell value of a pandas object column: a string, a boolean
(introduced by the boolean-flag conversion) or missing (NaN). -/
inductive PyVal where
  | str (s : String)
  | bool (b : Bool)
  | nan
deriving DecidableEq

/-- Python `str(val)`: the textual representation of a cell value.
`str(float('nan'))` is the three-character string `"nan"`. -/
def pyStr : PyVal → String
  | .str s => s
  | .bool true => "True"
  | .bool false => "False"
  | .nan => "nan"

/-- Characters removed by Python `str.strip()`. -/
def isPySpace (c : Char) : Bool :=
  c = ' ' || c = '\t' || c = '\n' || c = '\r' || c = '\x0b' || c = '\x0c'

/-- Python `s.strip()`: drop leading and trailing whitespace. -/
def pyStrip (s : String) : String :=
  ⟨((s.data.dropWhile isPySpace).reverse.dropWhile isPySpace).reverse⟩

/-- Python `s.upper()` (ASCII model). -/
def pyUpper (s : String) : String :=
  ⟨s.data.map Char.toUpper⟩

/-- `normalize_string` from data_pipeline.py: if the stripped textual
representation is the token `"()"`, return the empty string; otherwise the
stripped, upper-cased representation. -/
def normalize_string (val : PyVal) : String :=
  if pyStrip (pyStr val) = "()" then ""
  else pyUpper (pyStrip (pyStr val))

/-- The per-cell effect of `Series.replace({'Y': True, 'YES': True,
'N': False, 'NO': False})`: exact string matches become booleans, all other
cells are unchanged. -/
def boolReplaceCell (v : PyVal) : PyVal :=
  match v with
  | .str s =>
    if s = "Y" ∨ s = "YES" then .bool true
    else if s = "N" ∨ s = "NO" then .bool false
    else .str s
  | other => other

/-- Modelled from the spec: the Value Normalizer's per-cell contract on a
text-typed column — convert to text, strip leading/trailing whitespace,
upper-case, except that a stripped value equal to `"()"` becomes empty. -/
def specTextNormalize (v : PyVal) : String :=
  let t := pyStrip (pyStr v)
  if t = "()" then "" else pyUpper t

/-- Modelled from the spec: the boolean-flag mapping on a normalized text
value — `{"Y","YES"} ↦ true`, `{"N","NO"} ↦ false`, anything else is left
as its normalized text. -/
def specFlagMap (t : String) : PyVal :=
  if t = "Y" ∨ t = "YES" then .bool true
  else if t = "N" ∨ t = "NO" then .bool false
  else .str t

/-- A pandas DataFrame: an ordered list of column names and an ordered list
of rows, each row a list of cells positionally aligned with `cols`. -/
structure DF where
  cols : List String
  rows : List (List PyVal)
deriving DecidableEq

/-- Cell access with positional index; out-of-range reads are missing. -/
def getCell (r : List PyVal) (i : Nat) : PyVal := r.getD i .nan

/-- Position of a column name in a column list (first match), `none` when
the column is absent (a pandas `KeyError`). -/
def colIdx : List String → String → Option Nat
  | [], _ => none
  | c :: rest, k => if c = k then some 0 else (colIdx rest k).map (· + 1)

/-- The key column of a table, as the list of its cells. -/
def keyVals (df : DF) (i : Nat) : List PyVal :=
  df.rows.map (fun r => getCell r i)

/-- Association-list lookup (first match), modelling Python dict lookup. -/
def alookup {β : Type} : List (String × β) → String → Option β
  | [], _ => none
  | (k, v) :: rest, c => if c = k then some v else alookup rest c

/-- `DataFrame.rename(columns=m)` on a single name: the mapped name when
present in the dict, otherwise the name itself. -/
def lookupRename (m : List (String × String)) (c : String) : String :=
  (alookup m c).getD c

/-- The static part of the `udf_cols` schema dict of data_pipeline.py
(every entry except `'Job No.'`, in source order). -/
def staticCols : List (String × String) :=
  [ ("carr_eqp_uid", "carr_eqp_uid"),
    ("Container Number", "container_number"),
    ("Container Type", "container_type"),
    ("Destination Service", "destination_service"),
    ("Consignee Code (Multiple)", "consignee_code_multiple"),
    ("PO Number (Multiple)", "po_number_multiple"),
    ("Booking Number (Multiple)", "booking_number_multiple"),
    ("FCR Number (Multiple)", "fcr_number_multiple"),
    ("Ocean BL No (Multiple)", "ocean_bl_no_multiple"),
    ("Load Port", "load_port"),
    ("Final Load Port", "final_load_port"),
    ("Discharge Port", "discharge_port"),
    ("Last CY Location", "last_cy_location"),
    ("Place of Receipt", "place_of_receipt"),
    ("Place of Delivery", "place_of_delivery"),
    ("Final Destination", "final_destination"),
    ("First Vessel Code", "first_vessel_code"),
    ("First Vessel Name", "first_vessel_name"),
    ("First Voyage code", "first_voyage_code"),
    ("Final Carrier Code", "final_carrier_code"),
    ("Final Carrier SCAC Code", "final_carrier_scac_code"),
    ("Final Carrier Name", "final_carrier_name"),
    ("Final Vessel Code", "final_vessel_code"),
    ("Final Vessel Name", "final_vessel_name"),
    ("Final Voyage code", "final_voyage_code"),
    ("True Carrier Code", "true_carrier_code"),
    ("True Carrier SCAC Code", "true_carrier_scac_code"),
    ("True Carrier SCAC Name", "true_carrier_scac_name"),
    ("ETD LP", "etd_lp"),
    ("ETD FLP", "etd_flp"),
    ("ETA DP", "eta_dp"),
    ("ETA FD", "eta_fd"),
    ("Revised ETA", "revised_eta"),
    ("Predictive ETA", "predictive_eta"),
    ("ATD LP", "atd_lp"),
    ("ATA FLP", "ata_flp"),
    ("ATD FLP", "atd_flp"),
    ("ATA DP", "ata_dp"),
    ("Derived ATA DP", "derived_ata_dp"),
    ("Revised ETA FD", "revised_eta_fd"),
    ("Predictive ETA FD", "predictive_eta_fd"),
    ("Cargo Received Date (Multiple)", "cargo_received_date_multiple"),
    ("Detention Free Days", "detention_free_days"),
    ("Demurrage Free Days", "demurrage_free_days"),
    ("Hot Container Flag", "hot_container_flag"),
    ("Supplier/Vendor Name", "supplier_vendor_name"),
    ("Manufacturer Name", "manufacturer_name"),
    ("Ship To Party Name", "ship_to_party_name"),
    ("Booking Approval Status", "booking_approval_status"),
    ("Service Contract Number", "service_contract_number"),
    ("CARRIER VEHICLE LOAD Date", "carrier_vehicle_load_date"),
    ("Carrier Vehicle Load Lcn", "carrier_vehicle_load_lcn"),
    ("Vehicle Departure Date", "vehicle_departure_date"),
    ("Vehicle Departure Lcn", "vehicle_departure_lcn"),
    ("Vehicle Arrival Date", "vehicle_arrival_date"),
    ("Vehicle Arrival Lcn", "vehicle_arrival_lcn"),
    ("Carrier Vehicle Unload Date", "carrier_vehicle_unload_date"),
    ("Carrier Vehicle Unload Lcn", "carrier_vehicle_unload_lcn"),
    ("Out Gate Date From DP", "out_gate_date_from_dp"),
    ("Out Gate Location", "out_gate_location"),
    ("Equipment Arrived at Last CY", "equipment_arrived_at_last_cy"),
    ("Equipment Arrival at Last Lcn", "equipment_arrival_at_last_lcn"),
    ("Out gate at Last CY", "out_gate_at_last_cy"),
    ("Out gate at Last CY Lcn", "out_gate_at_last_cy_lcn"),
    ("Delivery Date To Consignee", "delivery_date_to_consignee"),
    ("Delivery Date To Consignee Lcn", "delivery_date_to_consignee_lcn"),
    ("Empty Container Return Date", "empty_container_return_date"),
    ("Empty Container Return Lcn", "empty_container_return_lcn"),
    ("Late Booking Status", "late_booking_status"),
    ("Current Departure status", "current_departure_status"),
    ("Current Arrival status", "current_arrival_status"),
    ("Late Arrival status", "late_arrival_status"),
    ("Late Container Return status", "late_container_return_status"),
    ("CO2 Emission For Tank On Wheel", "co2_emission_for_tank_on_wheel"),
    ("CO2 Emission For Well To Wheel", "co2_emission_for_well_to_wheel"),
    ("Job Type", "job_type"),
    ("MCS HBL", "mcs_hbl"),
    ("Transport Mode", "transport_mode") ]

/-- The `udf_cols` dict after line 195 of data_pipeline.py has executed:
the fixed raw header `'Job No.'` maps to the run-time configured
`key_col_original`, every other entry is static. -/
def udf_cols (keyCol : String) : List (String × String) :=
  ("Job No.", keyCol) :: staticCols

/-- `col.replace("\n", " ")` on a single character. -/
def foldChar (ch : Char) : Char := if ch = '\n' then ' ' else ch

/-- `col.replace("\n", " ")`: fold embedded line breaks in a header name. -/
def foldNewlines (s : String) : String := ⟨s.data.map foldChar⟩

/-- The newline-folding loop over the column names (rows untouched). -/
def foldCols (df : DF) : DF := ⟨df.cols.map foldNewlines, df.rows⟩

/-- `w_df.rename(columns=udf_cols)` (rows untouched). -/
def renameCols (keyCol : String) (df : DF) : DF :=
  ⟨df.cols.map (lookupRename (udf_cols keyCol)), df.rows⟩

/-- The schema-normalization step of the pipeline: fold newlines in
headers, then rename per the (key-updated) `udf_cols` dict. -/
def schemaNormalize (keyCol : String) (df : DF) : DF :=
  renameCols keyCol (foldCols df)

/-- `preprocessed_df`: apply `normalize_string` to every cell of every
object column (in this model every column is an object column). -/
def preprocessed_df (df : DF) : DF :=
  ⟨df.cols, df.rows.map (fun r => r.map (fun v => PyVal.str (normalize_string v)))⟩

/-- The six boolean-flag columns of data_pipeline.py. -/
def bool_cols : List String :=
  [ "hot_container_flag", "late_booking_status", "current_departure_status",
    "current_arrival_status", "late_arrival_status",
    "late_container_return_status" ]

/-- `curr_df[col].replace({...})` for one flag column, when present. -/
def replaceFlagCol (df : DF) (col : String) : DF :=
  match colIdx df.cols col with
  | none => df
  | some i => ⟨df.cols, df.rows.map (fun r => r.set i (boolReplaceCell (getCell r i)))⟩

/-- The boolean type-conversion loop over `bool_cols`. -/
def applyBoolCols (df : DF) : DF := bool_cols.foldl replaceFlagCol df

/-- The whole normalization of the increment: fold headers, rename,
normalize values, convert flags. -/
def normalize_increment (keyCol : String) (df : DF) : DF :=
  applyBoolCols (preprocessed_df (schemaNormalize keyCol df))

/-- `Series.unique()`: the distinct values in first-occurrence order. -/
def pyUnique (l : List PyVal) : List PyVal :=
  l.foldl (fun acc x => if x ∈ acc then acc else acc ++ [x]) []

/-- The column set of `pd.concat` with `sort=False`: the first frame's
columns followed by the second frame's new columns, in order. -/
def unionCols (c1 c2 : List String) : List String :=
  c1 ++ c2.filter (fun c => c ∉ c1)

/-- Align one row, given with columns `oldCols`, to the column list
`newCols`; cells for columns absent from `oldCols` are missing (NaN). -/
def reindexRow (oldCols : List String) (row : List PyVal) (newCols : List String) :
    List PyVal :=
  newCols.map (fun c =>
    match colIdx oldCols c with
    | some i => getCell row i
    | none => PyVal.nan)

/-- `pd.concat([a, b], ignore_index=True)`: outer column union, rows of `a`
then rows of `b`, missing cells padded with NaN. -/
def concatOuter (a b : DF) : DF :=
  let cols := unionCols a.cols b.cols
  ⟨cols, a.rows.map (fun r => reindexRow a.cols r cols)
      ++ b.rows.map (fun r => reindexRow b.cols r cols)⟩

/-- The incremental merge of data_pipeline.py lines 232–237: take the
distinct key values of the increment (`unique`), keep the master rows whose
key is not among them (`isin` + mask), and concatenate kept master rows
with the increment.  `none` models the `KeyError` raised when either table
lacks the key column. -/
def mergeTables (prev curr : DF) (k : String) : Option DF :=
  match colIdx curr.cols k, colIdx prev.cols k with
  | some ic, some ip =>
    let unique_jobs_curr := pyUnique (keyVals curr ic)
    let prev_cleaned := prev.rows.filter (fun r => getCell r ip ∉ unique_jobs_curr)
    some (concatOuter ⟨prev.cols, prev_cleaned⟩ curr)
  | _, _ => none

/-- Modelled from the spec's merge contract: partition `M` by whether the
row's key appears among the increment's key values, discard the matching
part, and concatenate the retained rows with `I` over the union of both
column sets, padding missing cells. -/
def specMerge (M I : DF) (iM iI : Nat) : DF :=
  let keys := keyVals I iI
  let parts := M.rows.partition (fun r => getCell r iM ∈ keys)
  let retained := parts.2
  let cols := unionCols M.cols I.cols
  ⟨cols, retained.map (fun r => reindexRow M.cols r cols)
      ++ I.rows.map (fun r => reindexRow I.cols r cols)⟩

/-- Python `s.split(c)` for a one-character separator: every occurrence
splits, adjacent separators yield empty components, `''.split(c) = ['']`. -/
def splitOnChar (c : Char) : List Char → List (List Char)
  | [] => [[]]
  | x :: xs =>
    if x = c then [] :: splitOnChar c xs
    else
      match splitOnChar c xs with
      | [] => [[x]]
      | h :: t => (x :: h) :: t

/-- Rejoin the components produced by `splitOnChar`, re-inserting the
separator. -/
def joinSep (c : Char) : List (List Char) → List Char
  | [] => []
  | [p] => p
  | p :: q :: rest => p ++ c :: joinSep c (q :: rest)

/-- Numeric value of a digit string. -/
def digitsToNat (l : List Char) : Nat :=
  l.foldl (fun acc ch => acc * 10 + (ch.toNat - 48)) 0

/-- Days in a month, with the Gregorian leap rule, as `datetime` checks. -/
def daysInMonth (y m : Nat) : Nat :=
  if m = 2 then
    if (y % 4 = 0 ∧ y % 100 ≠ 0) ∨ y % 400 = 0 then 29 else 28
  else if m = 4 ∨ m = 6 ∨ m = 9 ∨ m = 11 then 30
  else 31

/-- `datetime.strptime(s, '%Y%m%d%H%M')`, reduced to the timestamp's
numeric value: twelve digits split as year/month/day/hour/minute, each
field range-checked; `none` models the `ValueError` raised otherwise.
Valid timestamps compare under `YYYYMMDDHHmm` ordering exactly as their
twelve-digit numeric values do. -/
def parseTimestamp (l : List Char) : Option Nat :=
  if l.length = 12 ∧ l.all Char.isDigit then
    let y := digitsToNat (l.take 4)
    let mo := digitsToNat ((l.drop 4).take 2)
    let d := digitsToNat ((l.drop 6).take 2)
    let h := digitsToNat ((l.drop 8).take 2)
    let mi := digitsToNat ((l.drop 10).take 2)
    if 1 ≤ y ∧ 1 ≤ mo ∧ mo ≤ 12 ∧ 1 ≤ d ∧ d ≤ daysInMonth y mo ∧
        h ≤ 23 ∧ mi ≤ 59 then
      some (digitsToNat l)
    else none
  else none

/-- The sort key of `find_latest_csv`:
`datetime.strptime(item.split('_')[1].split(".")[0], '%Y%m%d%H%M')`.
`none` models the `IndexError` (no second underscore component) or the
`ValueError` (malformed timestamp) the Python expression raises. -/
def extractKey (f : String) : Option Nat :=
  match splitOnChar '_' f.data with
  | _ :: comp :: _ =>
    (match splitOnChar '.' comp with
     | ts :: _ => parseTimestamp ts
     | [] => none)
  | _ => none

/-- Decorate each filename with its sort key; `none` when any name is
malformed (Python's `sorted` evaluates the key on every element). -/
def decorate : List String → Option (List (Nat × String))
  | [] => some []
  | f :: fs =>
    match extractKey f, decorate fs with
    | some k, some rest => some ((k, f) :: rest)
    | _, _ => none

/-- Stable descending insertion, by the numeric key: an element inserted
among equal keys goes first, matching the stability of Python's `sorted`
with `reverse=True`. -/
def insertDesc (x : Nat × String) : List (Nat × String) → List (Nat × String)
  | [] => [x]
  | y :: ys => if y.1 > x.1 then y :: insertDesc x ys else x :: y :: ys

/-- `sorted(file_list, key=..., reverse=True)`: stable descending sort. -/
def sortDescBy : List (Nat × String) → List (Nat × String)
  | [] => []
  | x :: xs => insertDesc x (sortDescBy xs)

/-- `find_latest_csv`: sort the candidates by embedded timestamp,
descending, and take the first (`res[0]`).  `none` models the exception
raised on a malformed name or an empty candidate list. -/
def find_latest_csv (files : List String) : Option String :=
  match decorate files with
  | none => none
  | some keyed => ((sortDescBy keyed).head?).map Prod.snd

/-- A filename following the snapshot convention with an underscore-free
prefix: exactly one `'_'`, and what follows it is `<ts>.csv` with `ts` a
valid `YYYYMMDDHHmm` timestamp. -/
def wellFormedCsv (f : String) : Bool :=
  match splitOnChar '_' f.data with
  | [_, comp] =>
    (match splitOnChar '.' comp with
     | [ts, ext] => decide (ext = "csv".data) && (parseTimestamp ts).isSome
     | _ => false)
  | _ => false

/-- Modelled from the spec: the embedded timestamp of a snapshot filename
`<anything>_<YYYYMMDDHHmm>.csv` — the characters between the last
underscore and the trailing `.csv`, parsed as `YYYYMMDDHHmm`. -/
def specTimestamp (f : String) : Option Nat :=
  match (splitOnChar '_' f.data).getLast? with
  | none => none
  | some comp => parseTimestamp (comp.take (comp.length - 4))

/-- In-memory model of blob storage: containers by name, each an
association list from blob name to its (CSV-parsed) DataFrame. -/
structure Store where
  containers : List (String × List (String × DF))
deriving DecidableEq

/-- `list_csv_blobs`: the names in a container ending in `"csv"`. -/
def list_csv_blobs (st : Store) (con : String) : List String :=
  ((alookup st.containers con).getD []).map Prod.fst
    |>.filter (fun n => "csv".data.isSuffixOf n.data)

/-- `read_file`: fetch a blob's parsed DataFrame; `none` models the
storage/read error raised when it is absent. -/
def read_file (st : Store) (con file : String) : Option DF :=
  (alookup st.containers con).bind (fun blobs => alookup blobs file)

/-- Overwrite-or-create a blob inside one container's blob list. -/
def setBlob : List (String × DF) → String → DF → List (String × DF)
  | [], n, df => [(n, df)]
  | (m, d) :: rest, n, df =>
    if m = n then (n, df) :: rest else (m, d) :: setBlob rest n df

/-- `upload_df_to_blob`: write the DataFrame to the named blob of the
named container, overwriting any existing blob of that name. -/
def upload_df_to_blob (st : Store) (con name : String) (df : DF) : Store :=
  ⟨st.containers.map (fun p => if p.1 = con then (p.1, setBlob p.2 name df) else p)⟩

/-- The run-time configuration read from the environment; `none` models a
missing variable. -/
structure Config where
  conn_str : Option String
  dnld_con_name : Option String
  upld_con_name : Option String
  key_col_original : Option String
  pre_pblob : Option String

/-- Python truthiness of an optional environment value: present and
non-empty (`if not all([...])`). -/
def truthy (o : Option String) : Bool := o.getD "" ≠ ""

/-- The `if not all([conn_str, dnld_con_name, upld_con_name,
key_col_original, pre_pblob])` configuration check. -/
def configOk (cfg : Config) : Bool :=
  truthy cfg.conn_str && truthy cfg.dnld_con_name && truthy cfg.upld_con_name
    && truthy cfg.key_col_original && truthy cfg.pre_pblob

/-- The typed errors a pipeline run can raise (spec §7 names for the
exceptions of data_pipeline.py). -/
inductive PipeError where
  | ConfigurationError
  | NoCandidates
  | MalformedFilename
  | StorageReadError
  | MissingKeyColumn
deriving DecidableEq

/-- The structured outcome record returned on success. -/
structure Outcome where
  status : String
  total_records_in_final_file : Nat
  new_records_shape : Nat × Nat
  previous_records_shape : Nat × Nat
  key_column_used : String
  target_blob : String
deriving DecidableEq

/-- `df.shape`: (row count, column count). -/
def shape (df : DF) : Nat × Nat := (df.rows.length, df.cols.length)

/-- `run_ingestion_pipeline`: validate configuration, discover the latest
increment, read and normalize it, read the master, merge, and finally
publish the merged table — the single write, performed last.  The returned
pair is (outcome or raised error, resulting store state). -/
def run_ingestion_pipeline (cfg : Config) (st : Store) :
    Except PipeError Outcome × Store :=
  if configOk cfg then
    let dnld := cfg.dnld_con_name.getD ""
    let upld := cfg.upld_con_name.getD ""
    let keyCol := cfg.key_col_original.getD ""
    let blobName := cfg.pre_pblob.getD ""
    let csv_files := list_csv_blobs st dnld
    match find_latest_csv csv_files with
    | none =>
      (.error (if csv_files.isEmpty then .NoCandidates else .MalformedFilename), st)
    | some latest =>
      match read_file st dnld latest with
      | none => (.error .StorageReadError, st)
      | some w_df =>
        let curr_df := normalize_increment keyCol w_df
        match read_file st upld blobName with
        | none => (.error .StorageReadError, st)
        | some prev_df =>
          match mergeTables prev_df curr_df keyCol with
          | none => (.error .MissingKeyColumn, st)
          | some final_df =>
            (.ok ⟨"SUCCESS", final_df.rows.length, shape w_df, shape prev_df,
                  keyCol, blobName⟩,
             upload_df_to_blob st upld blobName final_df)
  else (.error .ConfigurationError, st)

/-- The recorded status of the background pipeline job (main.py's
`pipeline_status["status"]`). -/
inductive JobStatus where
  | IDLE
  | RUNNING
  | SUCCESS
  | FAILED
deriving DecidableEq

/-- The serving layer's process-wide job bookkeeping, with a counter of
pipeline threads started so far. -/
structure PipelineStatus where
  status : JobStatus
  runsStarted : Nat
deriving DecidableEq

/-- The admission decision of the `/trigger_ingestion` endpoint. -/
inductive TriggerResult where
  | http429
  | accepted
deriving DecidableEq

/-- The `/trigger_ingestion` handler: reject with HTTP 429 while the
recorded status is RUNNING, otherwise start a pipeline thread (the thread
itself, not the handler, later sets the status to RUNNING). -/
def trigger_ingestion (s : PipelineStatus) : PipelineStatus × TriggerResult :=
  if s.status = .RUNNING then (s, .http429)
  else ({ s with runsStarted := s.runsStarted + 1 }, .accepted)

/-- The tail of the `/upload-csv` handler after a successful blob upload:
it starts a pipeline thread unconditionally, with no check of the recorded
status. -/
def upload_csv (s : PipelineStatus) : PipelineStatus :=
  { s with runsStarted := s.runsStarted + 1 }

deriving instance DecidableEq for Except

/-! Concrete instances used by the witness theorems. -/

/-- One normalization step on a single column name: fold newlines, then
rename per the key-updated schema dict. -/
def renameStep (keyCol : String) (c : String) : String :=
  lookupRename (udf_cols keyCol) (foldNewlines c)

/-- Example master table (spec §8's merge example). -/
def dfMasterEx : DF :=
  ⟨["Job_No", "val"], [[.str "1", .str "A"], [.str "2", .str "B"]]⟩

/-- Example increment table (spec §8's merge example). -/
def dfIncrEx : DF :=
  ⟨["Job_No", "val"], [[.str "2", .str "B2"], [.str "3", .str "C"]]⟩

/-- Example master table for the duplicate-key row-count witness. -/
def dfMasterDup : DF := ⟨["k"], [[.str "1"]]⟩

/-- Example increment with a duplicated key. -/
def dfIncrDup : DF := ⟨["k"], [[.str "5"], [.str "5"]]⟩

/-- The merged result of `dfMasterDup` and `dfIncrDup`. -/
def dfMergedDup : DF := ⟨["k"], [[.str "1"], [.str "5"], [.str "5"]]⟩

/-- A fully populated configuration. -/
def cfgEx : Config :=
  ⟨some "conn", some "dnld", some "upld", some "Job_No", some "master.csv"⟩

/-- A configuration with every environment variable missing. -/
def cfgNoneEx : Config := ⟨none, none, none, none, none⟩

/-- A store whose increment blob lacks the configured key column. -/
def stNoKeyEx : Store :=
  ⟨[("dnld", [("inc_202501010900.csv", ⟨["foo"], [[.str "X"]]⟩)]),
    ("upld", [("master.csv", ⟨["Job_No"], [[.str "1"]]⟩)])]⟩

/-- The two-snapshot candidate list of spec §8. -/
def filesEx : List String := ["x_202501010900.csv", "x_202501020900.csv"]

/-- An already-canonical table for the idempotence witness: the canonical
key column, a canonical static column and a passthrough column. -/
def dfCanonEx : DF :=
  ⟨["Job No.", "Container Number", "extra col"], [[.str "1", .str "C", .str "x"]]⟩

/-- The effect of one `replaceFlagCol` pass on a single row: set the cell
at the flag column's index (when the column is present) to its
boolean-replaced value. -/
def rowStep (cols : List String) (r : List PyVal) (c : String) : List PyVal :=
  match colIdx cols c with
  | none => r
  | some i => r.set i (boolReplaceCell (getCell r i))

/-- Modelled from the spec: one row under §4.3's Value Normalizer — every
cell is normalized to its stripped, upper-cased text (with the `"()"`
sentinel), and exactly the cells lying in one of the six boolean-flag
columns additionally receive the partial boolean mapping. -/
def specNormalizeRow (cols : List String) (r : List PyVal) : List PyVal :=
  List.zipWith (fun c v =>
    if c ∈ bool_cols then specFlagMap (specTextNormalize v)
    else PyVal.str (specTextNormalize v)) cols r

/-- Modelled from the spec: §4.3's Value Normalizer on a whole table —
columns unchanged, every row normalized cell-wise with the boolean-flag
mapping scoped to exactly the flag columns present. -/
def specValueNormalize (df : DF) : DF :=
  ⟨df.cols, df.rows.map (specNormalizeRow df.cols)⟩

/-- Example table for the value-normalizer witness: one boolean-flag
column and one plain text column (whose `"N"` cell must stay text). -/
def dfValEx : DF :=
  ⟨["hot_container_flag", "remark"],
   [[.str " y ", .str " abc "], [.str "maybe", .nan], [.str "()", .str "N"]]⟩

/-! Helper lemmas. -/

theorem pyUnique_mem_aux (l : List PyVal) (acc : List PyVal) (x : PyVal) :
    x ∈ l.foldl (fun a y => if y ∈ a then a else a ++ [y]) acc ↔ x ∈ acc ∨ x ∈ l := by
  induction l generalizing acc with
  | nil => simp
  | cons y ys ih =>
    simp only [List.foldl_cons, ih, List.mem_cons]
    by_cases hy : y ∈ acc
    · rw [if_pos hy]
      constructor
      · rintro (h | h)
        · exact Or.inl h
        · exact Or.inr (Or.inr h)
      · rintro (h | rfl | h)
        · exact Or.inl h
        · exact Or.inl hy
        · exact Or.inr h
    · rw [if_neg hy]
      simp only [List.mem_append, List.mem_singleton, or_assoc]

theorem pyUnique_mem (l : List PyVal) (x : PyVal) : x ∈ pyUnique l ↔ x ∈ l := by
  unfold pyUnique
  rw [pyUnique_mem_aux]
  simp

theorem colIdx_eq_none (cols : List String) (k : String) :
    colIdx cols k = none ↔ k ∉ cols := by
  induction cols with
  | nil => simp [colIdx]
  | cons c rest ih =>
    simp only [colIdx, List.mem_cons]
    by_cases h : c = k
    · simp [h]
    · rw [if_neg h]
      simp only [Option.map_eq_none', ih]
      constructor
      · rintro hn (rfl | hm)
        · exact h rfl
        · exact hn hm
      · intro hno hm
        exact hno (Or.inr hm)

theorem mergeTables_some (prev curr : DF) (k : String) (ic ip : Nat)
    (hic : colIdx curr.cols k = some ic) (hip : colIdx prev.cols k = some ip) :
    mergeTables prev curr k =
      some (concatOuter
        ⟨prev.cols, prev.rows.filter (fun r => getCell r ip ∉ keyVals curr ic)⟩
        curr) := by
  have hfe : prev.rows.filter (fun r => decide (getCell r ip ∉ pyUnique (keyVals curr ic)))
      = prev.rows.filter (fun r => decide (getCell r ip ∉ keyVals curr ic)) :=
    List.filter_congr (fun r _ => by
      rw [decide_eq_decide]
      exact not_congr (pyUnique_mem _ _))
  unfold mergeTables
  rw [hic, hip]
  dsimp only
  rw [hfe]

theorem mergeTables_none (prev curr : DF) (k : String)
    (h : k ∉ curr.cols ∨ k ∉ prev.cols) :
    mergeTables prev curr k = none := by
  unfold mergeTables
  rcases h with h | h
  · rw [(colIdx_eq_none _ _).2 h]
  · rw [(colIdx_eq_none _ _).2 h]
    rcases hc : colIdx curr.cols k with _ | ic <;> rfl

/-- C1: for every master table `M` and increment table `I` that both
contain the configured key column, the merge produces exactly the retained
rows of `M` (those whose key is absent from `I`'s distinct key values, in
`M`'s order) followed by all rows of `I` (in `I`'s order), over the union
of both column sets with absent cells padded as missing — i.e. the merge
equals the spec-modelled `specMerge`. -/
theorem mergeTables_eq_specMerge (M I : DF) (k : String) (iM iI : Nat)
    (hM : colIdx M.cols k = some iM) (hI : colIdx I.cols k = some iI) :
    mergeTables M I k = some (specMerge M I iM iI) := by
  have h2 : M.rows.filter (fun r => decide (getCell r iM ∉ keyVals I iI))
      = (M.rows.partition (fun r => decide (getCell r iM ∈ keyVals I iI))).2 := by
    rw [List.partition_eq_filter_filter]
    exact List.filter_congr (fun r _ => by simp [Function.comp, decide_not])
  rw [mergeTables_some M I k iI iM hI hM, h2]
  rfl

/-- C1 witness: the spec §8 example, master `{1↦A, 2↦B}` merged with
increment `{2↦B2, 3↦C}`. -/
theorem mergeTables_eq_specMerge_witness :
    colIdx dfMasterEx.cols "Job_No" = some 0 ∧
    mergeTables dfMasterEx dfIncrEx "Job_No" = some (specMerge dfMasterEx dfIncrEx 0 0) :=
  ⟨by decide, mergeTables_eq_specMerge dfMasterEx dfIncrEx "Job_No" 0 0 (by decide) (by decide)⟩

/-- C2: the merged result's row count is the number of master rows whose
key is absent from the increment's key set plus the number of increment
rows; no deduplication is applied. -/
theorem merge_row_count (M I : DF) (k : String) (iM iI : Nat) (res : DF)
    (hM : colIdx M.cols k = some iM) (hI : colIdx I.cols k = some iI)
    (hres : mergeTables M I k = some res) :
    res.rows.length
      = (M.rows.filter (fun r => getCell r iM ∉ keyVals I iI)).length
        + I.rows.length := by
  rw [mergeTables_some M I k iI iM hI hM] at hres
  simp only [Option.some.injEq] at hres
  rw [← hres]
  simp [concatOuter]

/-- C2 witness: an increment with key `5` duplicated keeps both rows —
the result has `1 + 2` rows. -/
theorem merge_row_count_witness :
    mergeTables dfMasterDup dfIncrDup "k" = some dfMergedDup ∧
    dfMergedDup.rows.length
      = (dfMasterDup.rows.filter (fun r => getCell r 0 ∉ keyVals dfIncrDup 0)).length
        + dfIncrDup.rows.length :=
  ⟨by decide,
   merge_row_count dfMasterDup dfIncrDup "k" 0 0 dfMergedDup (by decide) (by decide) (by decide)⟩

/-- C4 counterexample: the schema dict's runtime-configured slot is the
TARGET of the fixed raw header `'Job No.'`, not the raw name.  Two runs
with different configured key names produce two different targets for
`'Job No.'`, and a configured name (here `"AAA"`) is itself not renamed at
all — refuting both "renames that configured raw header" and "the same
canonical target name for every run". -/
theorem key_rename_fixed_target_cex :
    lookupRename (udf_cols "AAA") "Job No." = "AAA" ∧
    lookupRename (udf_cols "BBB") "Job No." = "BBB" ∧
    ("AAA" : String) ≠ "BBB" ∧
    lookupRename (udf_cols "AAA") "AAA" = "AAA" := by
  decide

/-- C4 (amended): the canonical schema mapping is static except that the
Key Field's TARGET name is supplied at run time — the normalizer renames
the fixed raw header `'Job No.'` to the configured key column name, and on
every other header the mapping is independent of the configuration. -/
theorem udf_cols_static_except_runtime_target (k1 k2 c : String) :
    lookupRename (udf_cols k1) "Job No." = k1 ∧
    (c ≠ "Job No." → lookupRename (udf_cols k1) c = lookupRename (udf_cols k2) c) := by
  constructor
  · simp [lookupRename, udf_cols, alookup]
  · intro h
    simp [lookupRename, udf_cols, alookup, h]

/-- C4 witness: with configured names `"Job_No"` and `"Other"`, the raw
header `'Job No.'` maps to the configured name, and a static header is
mapped the same way under both configurations. -/
theorem udf_cols_static_except_runtime_target_witness :
    lookupRename (udf_cols "Job_No") "Job No." = "Job_No" ∧
    lookupRename (udf_cols "Job_No") "Container Number"
      = lookupRename (udf_cols "Other") "Container Number" :=
  ⟨(udf_cols_static_except_runtime_target "Job_No" "Other" "Container Number").1,
   (udf_cols_static_except_runtime_target "Job_No" "Other" "Container Number").2 (by decide)⟩

/-- Per-cell agreement of the code's normalization with the spec's: strip,
upper-case, `"()" ↦ ""`; composing with the flag replace realizes the
partial mapping `{Y,YES} ↦ true`, `{N,NO} ↦ false`, anything else left as
normalized text, on a single cell. -/
theorem value_normalizer_cell_spec (v : PyVal) :
    normalize_string v = specTextNormalize v ∧
    boolReplaceCell (.str (normalize_string v)) = specFlagMap (specTextNormalize v) :=
  ⟨rfl, rfl⟩

/-- C10: a missing (NaN) cell of a text-typed column normalizes to the
literal three-character text `"NAN"` — not to an empty cell — and that is
what the value-normalization step stores for it. -/
theorem nan_cell_normalizes_to_NAN :
    normalize_string PyVal.nan = "NAN" ∧
    normalize_string PyVal.nan ≠ "" ∧
    preprocessed_df ⟨["remark"], [[PyVal.nan]]⟩ = ⟨["remark"], [[PyVal.str "NAN"]]⟩ := by
  decide

/-- C8 counterexample: with the recorded status RUNNING (one run already
started), a `/upload-csv` request still starts another pipeline thread and
is not rejected — the serving layer does not reject every run-starting
request while a run is in flight. -/
theorem upload_csv_starts_run_while_running_cex :
    upload_csv ⟨.RUNNING, 1⟩ = ⟨.RUNNING, 2⟩ := by
  decide

/-- C8 (amended): only the `/trigger_ingestion` endpoint rejects a
request (HTTP 429, leaving the state untouched) while the recorded status
is RUNNING; the `/upload-csv` endpoint starts a pipeline run
unconditionally, regardless of the recorded status, so the serving layer
does not guarantee at most one run in flight. -/
theorem trigger_rejects_running_upload_does_not (s : PipelineStatus) :
    (s.status = .RUNNING → trigger_ingestion s = (s, .http429)) ∧
    (upload_csv s).runsStarted = s.runsStarted + 1 ∧
    (upload_csv s).status = s.status := by
  refine ⟨fun h => ?_, rfl, rfl⟩
  simp [trigger_ingestion, h]

/-- C8 witness: at the concrete state (RUNNING, one run started), the
trigger endpoint rejects and the upload endpoint still starts a run. -/
theorem trigger_rejects_running_upload_does_not_witness :
    trigger_ingestion ⟨.RUNNING, 1⟩ = (⟨.RUNNING, 1⟩, .http429) ∧
    (upload_csv ⟨.RUNNING, 1⟩).runsStarted = 2 :=
  ⟨(trigger_rejects_running_upload_does_not ⟨.RUNNING, 1⟩).1 rfl,
   (trigger_rejects_running_upload_does_not ⟨.RUNNING, 1⟩).2.1⟩

theorem alookup_mem {β : Type} (l : List (String × β)) (c : String) (v : β)
    (h : alookup l c = some v) : (c, v) ∈ l := by
  induction l with
  | nil => simp [alookup] at h
  | cons kv rest ih =>
    obtain ⟨k, w⟩ := kv
    unfold alookup at h
    by_cases hc : c = k
    · rw [if_pos hc] at h
      obtain rfl : w = v := Option.some.inj h
      subst hc
      exact List.mem_cons_self _ _
    · rw [if_neg hc] at h
      exact List.mem_cons_of_mem _ (ih h)

theorem staticColsOk :
    staticCols.all (fun kv =>
      decide (kv.2 ≠ "Job No.")
        && decide ((alookup staticCols kv.2).getD kv.2 = kv.2)
        && decide (foldNewlines kv.2 = kv.2)) = true := by
  decide

theorem foldChar_idem (ch : Char) : foldChar (foldChar ch) = foldChar ch := by
  by_cases h : ch = '\n' <;> simp [foldChar, h]

theorem foldNewlines_idem (s : String) :
    foldNewlines (foldNewlines s) = foldNewlines s := by
  unfold foldNewlines
  refine congrArg String.mk ?_
  show (s.data.map foldChar).map foldChar = s.data.map foldChar
  rw [List.map_map]
  exact List.map_congr_left (fun ch _ => foldChar_idem ch)

theorem lookupRename_udf (keyCol c : String) :
    lookupRename (udf_cols keyCol) c =
      if c = "Job No." then keyCol else (alookup staticCols c).getD c := by
  unfold lookupRename udf_cols
  rw [show alookup (("Job No.", keyCol) :: staticCols) c
      = if c = "Job No." then some keyCol else alookup staticCols c from rfl]
  by_cases h : c = "Job No." <;> simp [h]

theorem renameStep_idem (keyCol : String)
    (hfold : foldNewlines keyCol = keyCol)
    (hfix : lookupRename (udf_cols keyCol) keyCol = keyCol) (c : String) :
    renameStep keyCol (renameStep keyCol c) = renameStep keyCol c := by
  unfold renameStep
  have hfc1 : foldNewlines (foldNewlines c) = foldNewlines c := foldNewlines_idem c
  rw [lookupRename_udf keyCol (foldNewlines c)]
  by_cases h1 : foldNewlines c = "Job No."
  · rw [if_pos h1, hfold]
    exact hfix
  · rw [if_neg h1]
    rcases h2 : alookup staticCols (foldNewlines c) with _ | v
    · simp only [Option.getD_none]
      rw [hfc1, lookupRename_udf keyCol (foldNewlines c), if_neg h1, h2]
      rfl
    · simp only [Option.getD_some]
      have hmem := alookup_mem staticCols (foldNewlines c) v h2
      have hall := List.all_eq_true.1 staticColsOk _ hmem
      simp only [Bool.and_eq_true, decide_eq_true_eq] at hall
      obtain ⟨⟨hv1, hv2⟩, hv3⟩ := hall
      rw [hv3, lookupRename_udf keyCol v, if_neg hv1]
      exact hv2

theorem map_of_idem {f : String → String} (hf : ∀ c, f (f c) = f c) :
    ∀ l : List String, (l.map f).map f = l.map f := by
  intro l
  induction l with
  | nil => rfl
  | cons c rest ih =>
    simp only [List.map_cons, hf c, ih]

theorem schemaNormalize_cols_eq (keyCol : String) (df : DF) :
    schemaNormalize keyCol df = ⟨df.cols.map (renameStep keyCol), df.rows⟩ := by
  unfold schemaNormalize renameCols foldCols
  rw [List.map_map]
  rfl

/-- C9 counterexample: with the key column configured as
`"Container Number"` (itself a raw header of the static mapping), the
once-normalized table — whose single column is the run's canonical key
name — changes again under a second application of the schema
normalizer. -/
theorem schema_normalize_not_idempotent_cex :
    schemaNormalize "Container Number"
        (schemaNormalize "Container Number" ⟨["Job No."], []⟩)
      ≠ schemaNormalize "Container Number" ⟨["Job No."], []⟩ := by
  decide

/-- C9 (amended): the schema normalization (newline folding followed by
the canonical rename) is idempotent, provided the configured key column
name contains no newline and is itself left fixed by the rename mapping
(it is not one of the raw headers mapped to a different name). -/
theorem schema_normalize_idempotent (keyCol : String) (df : DF)
    (hfold : foldNewlines keyCol = keyCol)
    (hfix : lookupRename (udf_cols keyCol) keyCol = keyCol) :
    schemaNormalize keyCol (schemaNormalize keyCol df)
      = schemaNormalize keyCol df := by
  rw [schemaNormalize_cols_eq keyCol df, schemaNormalize_cols_eq]
  dsimp only
  rw [map_of_idem (renameStep_idem keyCol hfold hfix)]

/-- C9 witness: with the default-style configured key `"Job_No"`, one
more application of the schema normalizer leaves the already-normalized
example table unchanged. -/
theorem schema_normalize_idempotent_witness :
    foldNewlines "Job_No" = "Job_No" ∧
    schemaNormalize "Job_No" (schemaNormalize "Job_No" dfCanonEx)
      = schemaNormalize "Job_No" dfCanonEx :=
  ⟨by decide, schema_normalize_idempotent "Job_No" dfCanonEx (by decide) (by decide)⟩

theorem run_cases (cfg : Config) (st : Store) :
    (∃ e, run_ingestion_pipeline cfg st = (.error e, st)) ∨
    (∃ out final, run_ingestion_pipeline cfg st =
      (.ok out, upload_df_to_blob st (cfg.upld_con_name.getD "")
        (cfg.pre_pblob.getD "") final)) := by
  unfold run_ingestion_pipeline
  by_cases hc : configOk cfg = true
  case neg =>
    rw [if_neg hc]
    exact Or.inl ⟨_, rfl⟩
  rw [if_pos hc]
  rcases hf : find_latest_csv (list_csv_blobs st (cfg.dnld_con_name.getD ""))
      with _ | latest <;> simp only [hf]
  · exact Or.inl ⟨_, rfl⟩
  rcases hr : read_file st (cfg.dnld_con_name.getD "") latest
      with _ | w_df <;> simp only [hr]
  · exact Or.inl ⟨_, rfl⟩
  rcases hp : read_file st (cfg.upld_con_name.getD "") (cfg.pre_pblob.getD "")
      with _ | prev_df <;> simp only [hp]
  · exact Or.inl ⟨_, rfl⟩
  rcases hm : mergeTables prev_df
      (normalize_increment (cfg.key_col_original.getD "") w_df)
      (cfg.key_col_original.getD "") with _ | final_df <;> simp only [hm]
  · exact Or.inl ⟨_, rfl⟩
  · exact Or.inr ⟨_, _, rfl⟩

/-- C6: a pipeline run is atomic from the caller's point of view — if any
step raises an error the store is unchanged (nothing is written), and on
success the store's only change is the single publish of the merged table
to the configured destination container and blob, performed last. -/
theorem pipeline_atomic_write (cfg : Config) (st : Store) :
    (∀ e, (run_ingestion_pipeline cfg st).1 = .error e →
      (run_ingestion_pipeline cfg st).2 = st) ∧
    (∀ out, (run_ingestion_pipeline cfg st).1 = .ok out →
      ∃ final, (run_ingestion_pipeline cfg st).2 =
        upload_df_to_blob st (cfg.upld_con_name.getD "")
          (cfg.pre_pblob.getD "") final) := by
  rcases run_cases cfg st with ⟨e', he⟩ | ⟨out', final, hok⟩
  · constructor
    · intro e h
      rw [he]
    · intro out h
      rw [he] at h
      simp at h
  · constructor
    · intro e h
      rw [hok] at h
      simp at h
    · intro out h
      exact ⟨final, by rw [hok]⟩

/-- C6 witness: a run that fails (missing configuration) leaves the store
untouched. -/
theorem pipeline_atomic_write_witness :
    (run_ingestion_pipeline cfgNoneEx stNoKeyEx).2 = stNoKeyEx :=
  (pipeline_atomic_write cfgNoneEx stNoKeyEx).1 .ConfigurationError rfl

/-- C7: when the run reaches the merge and either the normalized increment
or the master table lacks the configured key column, the whole run fails
with MissingKeyColumn and the store is unchanged — no write to the
destination occurs. -/
theorem missing_key_column_fails (cfg : Config) (st : Store) (latest : String)
    (w_df prev_df : DF)
    (hcfg : configOk cfg = true)
    (hfind : find_latest_csv (list_csv_blobs st (cfg.dnld_con_name.getD ""))
      = some latest)
    (hread : read_file st (cfg.dnld_con_name.getD "") latest = some w_df)
    (hprev : read_file st (cfg.upld_con_name.getD "") (cfg.pre_pblob.getD "")
      = some prev_df)
    (hkey : cfg.key_col_original.getD ""
          ∉ (normalize_increment (cfg.key_col_original.getD "") w_df).cols
        ∨ cfg.key_col_original.getD "" ∉ prev_df.cols) :
    run_ingestion_pipeline cfg st = (.error .MissingKeyColumn, st) := by
  have hmerge := mergeTables_none prev_df
    (normalize_increment (cfg.key_col_original.getD "") w_df)
    (cfg.key_col_original.getD "") hkey
  unfold run_ingestion_pipeline
  rw [if_pos hcfg]
  simp only [hfind, hread, hprev, hmerge]

/-- C7 witness: an increment blob without the configured key column makes
the concrete run fail with MissingKeyColumn, store unchanged. -/
theorem missing_key_column_fails_witness :
    run_ingestion_pipeline cfgEx stNoKeyEx = (.error .MissingKeyColumn, stNoKeyEx) :=
  missing_key_column_fails cfgEx stNoKeyEx "inc_202501010900.csv"
    ⟨["foo"], [[.str "X"]]⟩ ⟨["Job_No"], [[.str "1"]]⟩
    (by decide) (by decide) (by decide) (by decide) (Or.inl (by decide))

theorem splitOnChar_ne_nil (c : Char) (l : List Char) : splitOnChar c l ≠ [] := by
  induction l with
  | nil => simp [splitOnChar]
  | cons x xs ih =>
    unfold splitOnChar
    by_cases hx : x = c
    · rw [if_pos hx]
      simp
    · rw [if_neg hx]
      rcases hs : splitOnChar c xs with _ | ⟨h0, t0⟩ <;> simp

theorem joinSep_splitOnChar (c : Char) (l : List Char) :
    joinSep c (splitOnChar c l) = l := by
  induction l with
  | nil => rfl
  | cons x xs ih =>
    unfold splitOnChar
    by_cases hx : x = c
    · rw [if_pos hx]
      rcases hs : splitOnChar c xs with _ | ⟨h0, t0⟩
      · exact absurd hs (splitOnChar_ne_nil c xs)
      · rw [hs] at ih
        show joinSep c ([] :: h0 :: t0) = x :: xs
        have : joinSep c ([] :: h0 :: t0) = [] ++ c :: joinSep c (h0 :: t0) := rfl
        rw [this, ih, hx]
        rfl
    · rw [if_neg hx]
      rcases hs : splitOnChar c xs with _ | ⟨h0, t0⟩
      · exact absurd hs (splitOnChar_ne_nil c xs)
      · rw [hs] at ih
        rcases t0 with _ | ⟨q, t1⟩
        · show joinSep c [x :: h0] = x :: xs
          have hih : h0 = xs := ih
          rw [show joinSep c [x :: h0] = x :: h0 from rfl, hih]
        · show joinSep c ((x :: h0) :: q :: t1) = x :: xs
          have : joinSep c ((x :: h0) :: q :: t1)
              = (x :: h0) ++ c :: joinSep c (q :: t1) := rfl
          rw [this, ← ih]
          rfl

theorem wf_extract (f : String) (h : wellFormedCsv f = true) :
    ∃ v, extractKey f = some v ∧ specTimestamp f = some v := by
  unfold wellFormedCsv at h
  rcases hs : splitOnChar '_' f.data with _ | ⟨p, rest⟩
  · rw [hs] at h
    simp at h
  rcases rest with _ | ⟨comp, rest2⟩
  · rw [hs] at h
    simp at h
  rcases rest2 with _ | ⟨x, rest3⟩
  case cons.cons.cons =>
    rw [hs] at h
    simp at h
  rw [hs] at h
  replace h : (match splitOnChar '.' comp with
      | [ts, ext] => decide (ext = "csv".data) && (parseTimestamp ts).isSome
      | _ => false) = true := h
  rcases hs2 : splitOnChar '.' comp with _ | ⟨ts, rest4⟩
  · rw [hs2] at h
    exact absurd h Bool.false_ne_true
  rcases rest4 with _ | ⟨ext, rest5⟩
  · rw [hs2] at h
    exact absurd h Bool.false_ne_true
  rcases rest5 with _ | ⟨y, rest6⟩
  case cons.cons.cons =>
    rw [hs2] at h
    exact absurd h Bool.false_ne_true
  rw [hs2] at h
  replace h : (decide (ext = "csv".data) && (parseTimestamp ts).isSome) = true := h
  simp only [Bool.and_eq_true, decide_eq_true_eq] at h
  obtain ⟨hext, hpts⟩ := h
  obtain ⟨v, hv⟩ := Option.isSome_iff_exists.1 hpts
  refine ⟨v, ?_, ?_⟩
  · unfold extractKey
    rw [hs]
    show (match splitOnChar '.' comp with
        | ts :: _ => parseTimestamp ts
        | [] => none) = some v
    rw [hs2]
    exact hv
  · unfold specTimestamp
    rw [hs]
    have hlast : ([p, comp] : List (List Char)).getLast? = some comp := rfl
    rw [hlast]
    have hcomp : comp = ts ++ '.' :: ext := by
      rw [← joinSep_splitOnChar '.' comp, hs2]
      rfl
    rw [hcomp, hext]
    show parseTimestamp
        (List.take ((ts ++ '.' :: "csv".data).length - 4) (ts ++ '.' :: "csv".data))
      = some v
    have hlen : (ts ++ '.' :: "csv".data).length - 4 = ts.length := by
      simp [List.length_append]
    rw [hlen, List.take_left]
    exact hv

theorem decorate_eq (files : List String)
    (h : ∀ f ∈ files, (extractKey f).isSome = true) :
    decorate files = some (files.map (fun f => ((extractKey f).getD 0, f))) := by
  induction files with
  | nil => rfl
  | cons f fs ih =>
    obtain ⟨k, hk⟩ := Option.isSome_iff_exists.1 (h f (List.mem_cons_self f fs))
    unfold decorate
    rw [hk, ih (fun g hg => h g (List.mem_cons_of_mem f hg))]
    simp [hk]

theorem sortDescBy_max (l : List (Nat × String)) (hne : l ≠ []) :
    ∃ z, (sortDescBy l).head? = some z ∧ z ∈ l ∧ ∀ y ∈ l, y.1 ≤ z.1 := by
  induction l with
  | nil => exact absurd rfl hne
  | cons x xs ih =>
    rcases xs with _ | ⟨b, bs⟩
    · refine ⟨x, rfl, List.mem_cons_self x [], ?_⟩
      intro y hy
      rcases List.mem_cons.1 hy with rfl | hy2
      · exact Nat.le_refl _
      · simp at hy2
    · obtain ⟨z, hz1, hz2, hz3⟩ := ih (by simp)
      obtain ⟨rest, hrest⟩ : ∃ rest, sortDescBy (b :: bs) = z :: rest := by
        rcases hsx : sortDescBy (b :: bs) with _ | ⟨h0, t0⟩
        · rw [hsx] at hz1
          simp at hz1
        · rw [hsx] at hz1
          simp only [List.head?_cons, Option.some.injEq] at hz1
          exact ⟨t0, by rw [hz1]⟩
      have hsort : sortDescBy (x :: b :: bs) = insertDesc x (sortDescBy (b :: bs)) := rfl
      by_cases hgt : z.1 > x.1
      · refine ⟨z, ?_, List.mem_cons_of_mem x hz2, ?_⟩
        · rw [hsort, hrest]
          unfold insertDesc
          rw [if_pos hgt]
          rfl
        · intro y hy
          rcases List.mem_cons.1 hy with rfl | hy2
          · exact Nat.le_of_lt hgt
          · exact hz3 y hy2
      · refine ⟨x, ?_, List.mem_cons_self x _, ?_⟩
        · rw [hsort, hrest]
          unfold insertDesc
          rw [if_neg hgt]
          rfl
        · intro y hy
          rcases List.mem_cons.1 hy with rfl | hy2
          · exact Nat.le_refl _
          · exact Nat.le_trans (hz3 y hy2) (Nat.le_of_not_lt hgt)

/-- C3 counterexample: two filenames that both match the convention
`<anything>_<YYYYMMDDHHmm>.csv`, where the first one's prefix contains an
underscore.  Its embedded timestamp (year 9999) is the larger, yet the
selector returns the other file, because the code parses
`item.split('_')[1]` — the component after the FIRST underscore — instead
of the timestamp component. -/
theorem find_latest_csv_arbitrary_prefix_cex :
    specTimestamp "a_202001010000_999901010000.csv" = some 999901010000 ∧
    specTimestamp "b_202501010900.csv" = some 202501010900 ∧
    202501010900 < 999901010000 ∧
    find_latest_csv ["a_202001010000_999901010000.csv", "b_202501010900.csv"]
      = some "b_202501010900.csv" := by
  decide

/-- C3 (amended): for every non-empty set of candidate filenames of the
form `<prefix>_<YYYYMMDDHHmm>.csv` where the prefix contains NO underscore,
the selector returns a filename whose embedded timestamp is maximal under
`YYYYMMDDHHmm` ordering. -/
theorem find_latest_csv_max_of_wellformed (files : List String) (hne : files ≠ [])
    (hwf : ∀ f ∈ files, wellFormedCsv f = true) :
    ∃ f, f ∈ files ∧ find_latest_csv files = some f ∧
      ∀ g ∈ files, (specTimestamp g).getD 0 ≤ (specTimestamp f).getD 0 := by
  have hts : ∀ f ∈ files, ∃ v, extractKey f = some v ∧ specTimestamp f = some v :=
    fun f hf => wf_extract f (hwf f hf)
  have hsome : ∀ f ∈ files, (extractKey f).isSome = true := by
    intro f hf
    obtain ⟨v, hv, _⟩ := hts f hf
    rw [hv]
    rfl
  have hdec := decorate_eq files hsome
  have hkne : files.map (fun f => ((extractKey f).getD 0, f)) ≠ [] := by
    simpa using hne
  obtain ⟨z, hz1, hz2, hz3⟩ := sortDescBy_max _ hkne
  obtain ⟨f, hf, hfz⟩ := List.mem_map.1 hz2
  refine ⟨f, hf, ?_, ?_⟩
  · unfold find_latest_csv
    rw [hdec]
    dsimp only
    rw [hz1, ← hfz]
    rfl
  · intro g hg
    obtain ⟨vf, hvf, hsf⟩ := hts f hf
    obtain ⟨vg, hvg, hsg⟩ := hts g hg
    rw [hsf, hsg]
    have hmem : ((extractKey g).getD 0, g)
        ∈ files.map (fun f => ((extractKey f).getD 0, f)) :=
      List.mem_map_of_mem _ hg
    have hle := hz3 _ hmem
    rw [← hfz, hvg, hvf] at hle
    exact hle

/-- C3 witness: the spec §8 example pair of snapshots; the selector picks
the one with the larger timestamp. -/
theorem find_latest_csv_max_of_wellformed_witness :
    ∃ f, f ∈ filesEx ∧ find_latest_csv filesEx = some f ∧
      ∀ g ∈ filesEx, (specTimestamp g).getD 0 ≤ (specTimestamp f).getD 0 :=
  find_latest_csv_max_of_wellformed filesEx (by decide) (by decide)

theorem getD_eq_getElem_of_lt {α : Type} (l : List α) (i : Nat) (d : α)
    (h : i < l.length) : l.getD i d = l[i] := by
  rw [List.getD_eq_getElem?_getD, List.getElem?_eq_getElem h]
  rfl

theorem replaceFlagCol_eq (cols : List String) (rows : List (List PyVal))
    (c : String) :
    replaceFlagCol ⟨cols, rows⟩ c = ⟨cols, rows.map (fun r => rowStep cols r c)⟩ := by
  unfold replaceFlagCol rowStep
  rcases h : colIdx cols c with _ | i <;> simp [h]

theorem foldl_replaceFlagCol (cs : List String) (cols : List String)
    (rows : List (List PyVal)) :
    cs.foldl replaceFlagCol ⟨cols, rows⟩
      = ⟨cols, rows.map (fun r => cs.foldl (rowStep cols) r)⟩ := by
  induction cs generalizing rows with
  | nil => simp
  | cons c cs ih =>
    rw [List.foldl_cons, replaceFlagCol_eq, ih, List.map_map]
    rfl

theorem rowStep_length (cols : List String) (r : List PyVal) (c : String) :
    (rowStep cols r c).length = r.length := by
  unfold rowStep
  rcases colIdx cols c with _ | i <;> simp

theorem foldl_rowStep_length (cs : List String) (cols : List String)
    (r : List PyVal) :
    (cs.foldl (rowStep cols) r).length = r.length := by
  induction cs generalizing r with
  | nil => rfl
  | cons c cs ih => rw [List.foldl_cons, ih, rowStep_length]

theorem colIdx_some_facts (cols : List String) (c : String) :
    ∀ i, colIdx cols c = some i → i < cols.length ∧ cols.getD i "" = c := by
  induction cols with
  | nil =>
    intro i h
    simp [colIdx] at h
  | cons c0 rest ih =>
    intro i h
    unfold colIdx at h
    by_cases h0 : c0 = c
    · rw [if_pos h0] at h
      obtain rfl : (0 : Nat) = i := Option.some.inj h
      exact ⟨Nat.succ_pos _, h0⟩
    · rw [if_neg h0] at h
      rcases hr : colIdx rest c with _ | i2
      · rw [hr] at h
        simp at h
      · rw [hr] at h
        simp only [Option.map_some', Option.some.injEq] at h
        obtain ⟨h1, h2⟩ := ih i2 hr
        subst h
        exact ⟨Nat.succ_lt_succ h1, h2⟩

theorem getCell_set_self (r : List PyVal) (i : Nat) (x : PyVal)
    (h : i < r.length) : getCell (r.set i x) i = x := by
  unfold getCell
  induction r generalizing i with
  | nil => simp at h
  | cons a as ih =>
    cases i with
    | zero => rfl
    | succ n => exact ih n (Nat.lt_of_succ_lt_succ h)

theorem getCell_set_ne (r : List PyVal) (i j : Nat) (x : PyVal)
    (h : i ≠ j) : getCell (r.set i x) j = getCell r j := by
  unfold getCell
  induction r generalizing i j with
  | nil => rfl
  | cons a as ih =>
    cases i with
    | zero =>
      cases j with
      | zero => exact absurd rfl h
      | succ m => rfl
    | succ n =>
      cases j with
      | zero => rfl
      | succ m => exact ih n m (fun hh => h (congrArg Nat.succ hh))

theorem nodup_getD_inj (cols : List String) (hnodup : cols.Nodup) (i j : Nat)
    (hi : i < cols.length) (hj : j < cols.length)
    (h : cols.getD i "" = cols.getD j "") : i = j := by
  rw [getD_eq_getElem_of_lt cols i "" hi, getD_eq_getElem_of_lt cols j "" hj] at h
  exact (List.Nodup.getElem_inj_iff hnodup).1 h

theorem foldl_rowStep_getCell (cols : List String) (hnodup : cols.Nodup) :
    ∀ cs : List String, cs.Nodup → ∀ r : List PyVal, r.length = cols.length →
      ∀ j : Nat, j < r.length →
      getCell (cs.foldl (rowStep cols) r) j
        = if cols.getD j "" ∈ cs then boolReplaceCell (getCell r j)
          else getCell r j := by
  intro cs
  induction cs with
  | nil =>
    intro _ r _ j _
    simp
  | cons c cs ih =>
    intro hcs r hr j hj
    obtain ⟨hc_not, hcs2⟩ := List.nodup_cons.1 hcs
    rw [List.foldl_cons]
    have hr2 : (rowStep cols r c).length = cols.length := by
      rw [rowStep_length, hr]
    have hj2 : j < (rowStep cols r c).length := by
      rw [rowStep_length]
      exact hj
    rw [ih hcs2 (rowStep cols r c) hr2 j hj2]
    by_cases hcj : cols.getD j "" = c
    · rw [if_neg (by rw [hcj]; exact hc_not),
        if_pos (by rw [hcj]; exact List.mem_cons_self c cs)]
      unfold rowStep
      have hcmem : c ∈ cols := by
        rw [← hcj, getD_eq_getElem_of_lt cols j "" (by rw [← hr]; exact hj)]
        exact List.getElem_mem _
      have hne : colIdx cols c ≠ none := fun hn => ((colIdx_eq_none cols c).1 hn) hcmem
      obtain ⟨i, hi⟩ := Option.ne_none_iff_exists'.1 hne
      rw [hi]
      show getCell (r.set i (boolReplaceCell (getCell r i))) j
        = boolReplaceCell (getCell r j)
      obtain ⟨hilt, hival⟩ := colIdx_some_facts cols c i hi
      have hij : i = j := nodup_getD_inj cols hnodup i j hilt
        (by rw [← hr]; exact hj) (by rw [hival, hcj])
      rw [hij]
      exact getCell_set_self r j _ hj
    · have hcell : getCell (rowStep cols r c) j = getCell r j := by
        unfold rowStep
        rcases hci : colIdx cols c with _ | i
        · rfl
        · show getCell (r.set i (boolReplaceCell (getCell r i))) j = getCell r j
          obtain ⟨hilt, hival⟩ := colIdx_some_facts cols c i hci
          exact getCell_set_ne r i j _ (fun hij2 => hcj (hij2 ▸ hival))
      rw [hcell]
      have hmemiff : (cols.getD j "" ∈ c :: cs) ↔ (cols.getD j "" ∈ cs) := by
        constructor
        · intro hmem
          rcases List.mem_cons.1 hmem with heq | hmem2
          · exact absurd heq hcj
          · exact hmem2
        · intro hmem
          exact List.mem_cons_of_mem c hmem
      by_cases hin : cols.getD j "" ∈ cs
      · rw [if_pos hin, if_pos (hmemiff.2 hin)]
      · rw [if_neg hin, if_neg (fun hmem => hin (hmemiff.1 hmem))]

/-- C5: the code's value-normalization step on a whole table — normalize
every cell of every (object) column, then run the flag replace over
`bool_cols` on the columns present — equals the spec's contract: every
cell becomes its stripped, upper-cased text (with the `"()"` sentinel),
and exactly the cells of the six boolean-flag columns present in the
table additionally receive the partial mapping `{Y,YES} ↦ true`,
`{N,NO} ↦ false`, anything else left as normalized text. -/
theorem value_normalizer_table_spec (df : DF) (hnodup : df.cols.Nodup)
    (hrows : ∀ r ∈ df.rows, r.length = df.cols.length) :
    applyBoolCols (preprocessed_df df) = specValueNormalize df := by
  show bool_cols.foldl replaceFlagCol (preprocessed_df df) = specValueNormalize df
  unfold preprocessed_df specValueNormalize
  rw [foldl_replaceFlagCol]
  congr 1
  rw [List.map_map]
  apply List.map_congr_left
  intro r hr
  show bool_cols.foldl (rowStep df.cols) (r.map (fun v => PyVal.str (normalize_string v)))
      = specNormalizeRow df.cols r
  have hlen := hrows r hr
  have hnr : (r.map (fun v => PyVal.str (normalize_string v))).length = df.cols.length := by
    rw [List.length_map, hlen]
  have hlen1 : (bool_cols.foldl (rowStep df.cols)
      (r.map (fun v => PyVal.str (normalize_string v)))).length = df.cols.length := by
    rw [foldl_rowStep_length, hnr]
  have hlen2 : (specNormalizeRow df.cols r).length = df.cols.length := by
    unfold specNormalizeRow
    rw [List.length_zipWith, hlen]
    exact Nat.min_self _
  apply List.ext_getElem (by rw [hlen1, hlen2])
  intro i h1 h2
  have hic : i < df.cols.length := by
    rw [← hlen1]
    exact h1
  have hir : i < r.length := by
    rw [hlen]
    exact hic
  have hinr : i < (r.map (fun v => PyVal.str (normalize_string v))).length := by
    rw [hnr]
    exact hic
  have hL : (bool_cols.foldl (rowStep df.cols)
      (r.map (fun v => PyVal.str (normalize_string v))))[i]
      = if df.cols.getD i "" ∈ bool_cols
        then boolReplaceCell (getCell (r.map (fun v => PyVal.str (normalize_string v))) i)
        else getCell (r.map (fun v => PyVal.str (normalize_string v))) i := by
    rw [← getD_eq_getElem_of_lt _ i PyVal.nan h1]
    exact foldl_rowStep_getCell df.cols hnodup bool_cols (by decide) _ hnr i hinr
  have hcellmap : getCell (r.map (fun v => PyVal.str (normalize_string v))) i
      = PyVal.str (normalize_string r[i]) := by
    unfold getCell
    rw [getD_eq_getElem_of_lt _ i PyVal.nan hinr, List.getElem_map]
  have hR : (specNormalizeRow df.cols r)[i]
      = if df.cols[i] ∈ bool_cols
        then specFlagMap (specTextNormalize r[i])
        else PyVal.str (specTextNormalize r[i]) := by
    unfold specNormalizeRow
    rw [List.getElem_zipWith]
  rw [hL, hcellmap, hR, getD_eq_getElem_of_lt df.cols i "" hic]
  by_cases hmem : df.cols[i] ∈ bool_cols
  · rw [if_pos hmem, if_pos hmem]
    rfl
  · rw [if_neg hmem, if_neg hmem]
    rfl

/-- C5 witness: on a concrete table with the flag column
`hot_container_flag` and a plain `remark` column, the code's
normalization equals the spec normalizer, and the `remark` cell `"N"`
stays text — the boolean mapping applies only to the flag column. -/
theorem value_normalizer_table_spec_witness :
    applyBoolCols (preprocessed_df dfValEx) = specValueNormalize dfValEx ∧
    specValueNormalize dfValEx =
      ⟨["hot_container_flag", "remark"],
       [[.bool true, .str "ABC"], [.str "MAYBE", .str "NAN"],
        [.str "", .str "N"]]⟩ :=
  ⟨value_normalizer_table_spec dfValEx (by decide) (by decide), by decide⟩
